import Mathlib

/-!
A verification development for the KNX/ETN metadata reconciliation pipeline.

The definitions below are shallow embeddings of the Python source:
  * the field-name tokenizer `EtnCdmMappingUpserter._tokenize`, the suffix-key
    generator `_generate_keys` and word splitter `_split_words`
    (etn_cdm_upserter.py);
  * the reconciliation engine `_reconcile_table` / `_find_best_match` /
    `_score_match` and the surrounding per-table driver `_match_records`
    (etn_cdm_upserter.py);
  * the SAP origin inferencer `_derive_sap_strategy` / `_select_sap_table` /
    `_select_sap_field` / `_collect_maestro_tokens` /
    `_tokenize_identifier_parts` / `_is_valid_identifier` and the static
    `SAP_TABLE_HINTS` table (etn_cdm_upserter.py);
  * the field-category classifier `_determine_field_category`
    (export_to_excel.py);
  * the recursive reference expander `_expand_reference_recursively`
    (extend_knx_doc.py and its twin in export_to_database.py).

Python strings are modelled as `String` / `List Char` (ASCII behaviour of
`str.lower`, `str.strip`, and the regexes involved); Python `set`s are
modelled as lists used with membership/`dedup`-based cardinality so that
duplicate insertions collapse exactly as they do in a `set`; Python object
identity of the per-table record dictionaries (used by the
`match['knx'] is knx_record` check) is modelled by pairing each record with
its index in the originating list, which is faithful because every record
dictionary is freshly created per list position.
-/

/-- ASCII whitespace stripped by Python's `str.strip()` and matched by the
regex class `\s`: space, tab, newline, carriage return, vertical tab and
form feed. -/
def isPySpace (c : Char) : Bool :=
  c == ' ' || c == '\t' || c == '\n' || c == '\r' || c == '\x0b' || c == '\x0c'

/-- The delimiter class `[._\s]` used by `_tokenize`'s `re.split`. -/
def isTokDelim (c : Char) : Bool :=
  c == '.' || c == '_' || isPySpace c

/-- The ASCII alphanumeric class `[A-Za-z0-9]`.  `Char.isAlpha` and
`Char.isDigit` are exactly the ASCII letter/digit ranges. -/
def isAsciiAlnum (c : Char) : Bool :=
  c.isAlpha || c.isDigit

/-- Python `str.strip()` on a character list: drop ASCII whitespace from both
ends. -/
def pyStrip (l : List Char) : List Char :=
  ((l.dropWhile isPySpace).reverse.dropWhile isPySpace).reverse

theorem length_dropWhile_le (p : Char → Bool) (l : List Char) :
    (l.dropWhile p).length ≤ l.length := by
  induction l with
  | nil => simp [List.dropWhile]
  | cons a t ih =>
    simp only [List.dropWhile]
    split
    · exact Nat.le_succ_of_le ih
    · simp

/-- Scanner for `splitRuns`: `acc` holds the reversed characters of the run
currently being read. -/
def splitRunsAux (keep : Char → Bool) : List Char → List Char → List (List Char)
  | [], acc => if acc = [] then [] else [acc.reverse]
  | c :: cs, acc =>
    if keep c then splitRunsAux keep cs (c :: acc)
    else if acc = [] then splitRunsAux keep cs []
    else acc.reverse :: splitRunsAux keep cs []

/-- Maximal runs of characters satisfying `keep`; when `keep` is the negation
of a delimiter class this is `re.split` on that class followed by dropping
the empty pieces, which is exactly how `_tokenize` consumes the output of
`re.split(r'[._\s]+', value)` (empty parts are skipped by
`if not part: continue`). -/
def splitRuns (keep : Char → Bool) (l : List Char) : List (List Char) :=
  splitRunsAux keep l []

/-- The de-pluralization step at the end of `_tokenize`'s per-segment loop:

    if lower.endswith('ies') and len(lower) > 3: lower = lower[:-3] + 'y'
    elif lower.endswith('ses') and len(lower) > 3: lower = lower[:-2]
    elif lower.endswith('s') and len(lower) > 3: lower = lower[:-1]
-/
def deplural (l : List Char) : List Char :=
  if "ies".data.isSuffixOf l && decide (l.length > 3) then
    l.take (l.length - 3) ++ ['y']
  else if "ses".data.isSuffixOf l && decide (l.length > 3) then
    l.take (l.length - 2)
  else if "s".data.isSuffixOf l && decide (l.length > 3) then
    l.take (l.length - 1)
  else l

/-- The body of `_tokenize`'s segment loop: strip non-alphanumerics
(`re.sub(r'[^A-Za-z0-9]', '', part)`), drop the segment if nothing is left,
lower-case, drop the literal stop word `"value"`, then de-pluralize.
`none` means the segment contributes no token. -/
def normalizeSeg (part : List Char) : Option (List Char) :=
  let cleaned := part.filter isAsciiAlnum
  if cleaned = [] then none
  else
    let lower := cleaned.map Char.toLower
    if lower = "value".data then none
    else some (deplural lower)

/-- `EtnCdmMappingUpserter._tokenize`, ordered-token component: strip the
input, split it on `[._\s]+`, and normalize each segment. -/
def tokenize (l : List Char) : List (List Char) :=
  let stripped := pyStrip l
  if stripped = [] then []
  else (splitRuns (fun c => !isTokDelim c) stripped).filterMap normalizeSeg

/-- Fuelled scanner for `splitWordRuns`; each step consumes at least one
character, so fuel equal to the input length never runs out. -/
def splitWordRunsF : Nat → List Char → List (List Char)
  | 0, _ => []
  | _ + 1, [] => []
  | f + 1, c :: cs =>
    if c.isLower then
      (c :: cs.takeWhile Char.isLower) :: splitWordRunsF f (cs.dropWhile Char.isLower)
    else if c.isDigit then
      (c :: cs.takeWhile Char.isDigit) :: splitWordRunsF f (cs.dropWhile Char.isDigit)
    else
      splitWordRunsF f cs

/-- `EtnCdmMappingUpserter._split_words`: `re.findall(r'[a-z]+|\d+', segment)`
— maximal runs of lowercase ASCII letters alternated with maximal runs of
digits; characters in neither class separate runs. -/
def splitWordRuns (l : List Char) : List (List Char) :=
  splitWordRunsF l.length l

/-- `_tokenize`'s `token_bag` component: for every normalized token the bag
receives the token itself plus each of its `_split_words` pieces.  The
Python bag is a `set`; here it is a list consumed only through membership
tests and `dedup`-based cardinalities. -/
def tokenBag (l : List Char) : List (List Char) :=
  (tokenize l).flatMap (fun t => t :: splitWordRuns t)

/-- `'.'`-joining of a token list, as in `'.'.join(tail)` /
re-joining tokenizer output. -/
def joinDots : List (List Char) → List Char
  | [] => []
  | [t] => t
  | t :: t₂ :: ts => t ++ '.' :: joinDots (t₂ :: ts)

/-- `EtnCdmMappingUpserter._generate_keys`: every suffix chain
`'.'.join(tokens[idx:])` for `idx` ranging over the token positions (the
Python guard `if tail` never fails for `idx < len(tokens)`). -/
def generateKeys (tokens : List (List Char)) : List (List Char) :=
  (List.range tokens.length).map (fun i => joinDots (tokens.drop i))

example : tokenize "Customer Name".data = ["customer".data, "name".data] := by decide
example : tokenize "values".data = ["value".data] := by decide
example : tokenize "value".data = [] := by decide
example : deplural "buses".data = "bus".data := by decide
example : generateKeys ["a".data, "b".data, "c".data] =
    ["a.b.c".data, "b.c".data, "c".data] := by decide

theorem pyspace_delim {c : Char} (h : isPySpace c = true) : isTokDelim c = true := by
  simp [isTokDelim, h]

theorem delim_mem {c : Char} (h : isTokDelim c = true) :
    c ∈ ['.', '_', ' ', '\t', '\n', '\x0d', '\x0b', '\x0c'] := by
  simp only [isTokDelim, isPySpace, Bool.or_eq_true, beq_iff_eq] at h
  simp only [List.mem_cons, List.not_mem_nil, or_false]
  tauto

theorem alnum_not_delim {c : Char} (h : isAsciiAlnum c = true) : isTokDelim c = false := by
  cases htd : isTokDelim c
  · rfl
  · exfalso
    have hm := delim_mem htd
    fin_cases hm <;> exact absurd h (by decide)

theorem alnum_not_pyspace {c : Char} (h : isAsciiAlnum c = true) : isPySpace c = false := by
  cases hs : isPySpace c
  · rfl
  · have h1 := alnum_not_delim h
    have h2 := pyspace_delim hs
    rw [h1] at h2
    exact h2.symm

theorem dropWhile_eq_self_of_none {p : Char → Bool} {l : List Char}
    (h : ∀ c ∈ l, p c = false) : l.dropWhile p = l := by
  cases l with
  | nil => rfl
  | cons a t => simp [List.dropWhile, h a (by simp)]

theorem pyStrip_eq_self {l : List Char} (h : ∀ c ∈ l, isPySpace c = false) :
    pyStrip l = l := by
  unfold pyStrip
  rw [dropWhile_eq_self_of_none h]
  rw [dropWhile_eq_self_of_none (fun c hc => h c (List.mem_reverse.mp hc))]
  exact List.reverse_reverse l

theorem takeWhile_run_end {p : Char → Bool} :
    ∀ (xs : List Char) {y : Char} {zs : List Char},
      (∀ c ∈ xs, p c = true) → p y = false →
      (xs ++ y :: zs).takeWhile p = xs := by
  intro xs
  induction xs with
  | nil => intro y zs _ hy; simp [List.takeWhile_cons, hy]
  | cons a t ih =>
    intro y zs hall hy
    rw [List.cons_append, List.takeWhile_cons, if_pos (by exact_mod_cast hall a (by simp))]
    rw [ih (fun c hc => hall c (by simp [hc])) hy]

theorem dropWhile_run_end {p : Char → Bool} :
    ∀ (xs : List Char) {y : Char} {zs : List Char},
      (∀ c ∈ xs, p c = true) → p y = false →
      (xs ++ y :: zs).dropWhile p = y :: zs := by
  intro xs
  induction xs with
  | nil => intro y zs _ hy; simp [List.dropWhile_cons, hy]
  | cons a t ih =>
    intro y zs hall hy
    rw [List.cons_append, List.dropWhile_cons, if_pos (by exact_mod_cast hall a (by simp))]
    exact ih (fun c hc => hall c (by simp [hc])) hy

theorem splitRunsAux_run {keep : Char → Bool} :
    ∀ (t : List Char) (rest acc : List Char),
      (∀ c ∈ t, keep c = true) →
      splitRunsAux keep (t ++ rest) acc = splitRunsAux keep rest (t.reverse ++ acc) := by
  intro t
  induction t with
  | nil => intro rest acc _; simp
  | cons a s ih =>
    intro rest acc hall
    rw [List.cons_append]
    show (if keep a then splitRunsAux keep (s ++ rest) (a :: acc)
          else if acc = [] then splitRunsAux keep (s ++ rest) []
          else acc.reverse :: splitRunsAux keep (s ++ rest) []) = _
    rw [if_pos (by exact_mod_cast hall a (by simp))]
    rw [ih rest (a :: acc) (fun c hc => hall c (by simp [hc]))]
    simp

theorem splitRuns_roundtrip {keep : Char → Bool} (hdot : keep '.' = false) :
    ∀ (ts : List (List Char)),
      (∀ t ∈ ts, t ≠ [] ∧ ∀ c ∈ t, keep c = true) →
      splitRuns keep (joinDots ts) = ts := by
  intro ts
  induction ts with
  | nil => intro _; rfl
  | cons t ts ih =>
    intro hall
    obtain ⟨htne, htkeep⟩ := hall t (by simp)
    have hrev : t.reverse ≠ [] := fun hr => htne (by simpa using hr)
    cases ts with
    | nil =>
      have hjo : joinDots [t] = t ++ [] := by simp [joinDots]
      unfold splitRuns
      rw [hjo, splitRunsAux_run t [] [] htkeep]
      simp [splitRunsAux, hrev]
    | cons t₂ ts₂ =>
      have hj : joinDots (t :: t₂ :: ts₂) = t ++ '.' :: joinDots (t₂ :: ts₂) := by
        simp [joinDots]
      unfold splitRuns
      rw [hj, splitRunsAux_run t _ [] htkeep]
      have ih' := ih (fun u hu => hall u (by simp [hu]))
      unfold splitRuns at ih'
      simp [splitRunsAux, hdot, hrev, ih']

theorem filterMap_id_of {f : List Char → Option (List Char)} :
    ∀ (ts : List (List Char)), (∀ t ∈ ts, f t = some t) → ts.filterMap f = ts := by
  intro ts
  induction ts with
  | nil => intro _; rfl
  | cons t ts ih =>
    intro hall
    rw [List.filterMap_cons, hall t (by simp), ih (fun u hu => hall u (by simp [hu]))]

theorem deplural_length_le (l : List Char) : (deplural l).length ≤ l.length := by
  unfold deplural
  split_ifs with h1 h2 h3
  · simp only [Bool.and_eq_true, decide_eq_true_eq] at h1
    simp only [List.length_append, List.length_take, List.length_cons, List.length_nil]
    omega
  · simp only [List.length_take]
    omega
  · simp only [List.length_take]
    omega
  · exact Nat.le_refl _

theorem deplural_pos {l : List Char} (h : l ≠ []) : 0 < (deplural l).length := by
  have hl : 0 < l.length := List.length_pos.mpr h
  unfold deplural
  split_ifs with h1 h2 h3
  · simp only [Bool.and_eq_true, decide_eq_true_eq] at h1
    simp only [List.length_append, List.length_take, List.length_cons, List.length_nil]
    omega
  · simp only [Bool.and_eq_true, decide_eq_true_eq] at h2
    simp only [List.length_take]
    omega
  · simp only [Bool.and_eq_true, decide_eq_true_eq] at h3
    simp only [List.length_take]
    omega
  · exact hl

/-- A token returned unchanged by a fresh run of the segment normalizer is
nonempty and purely ASCII-alphanumeric. -/
theorem normSeg_fix_spec {t : List Char} (h : normalizeSeg t = some t) :
    t ≠ [] ∧ ∀ c ∈ t, isAsciiAlnum c = true := by
  unfold normalizeSeg at h
  by_cases hc : t.filter isAsciiAlnum = []
  · simp [hc] at h
  · rw [if_neg hc] at h
    by_cases hv : (t.filter isAsciiAlnum).map Char.toLower = "value".data
    · simp [hv] at h
    · rw [if_neg hv] at h
      have heq : deplural ((t.filter isAsciiAlnum).map Char.toLower) = t :=
        Option.some.inj h
      have hlen1 : ((t.filter isAsciiAlnum).map Char.toLower).length ≤ t.length := by
        rw [List.length_map]
        exact List.Sublist.length_le (List.filter_sublist t)
      have hlen2 : t.length ≤ ((t.filter isAsciiAlnum).map Char.toLower).length := by
        conv_lhs => rw [← heq]
        exact deplural_length_le _
      have hfl : (t.filter isAsciiAlnum).length = t.length := by
        have hm := List.length_map (t.filter isAsciiAlnum) Char.toLower
        omega
      have hfilter : t.filter isAsciiAlnum = t :=
        (List.filter_sublist t).eq_of_length hfl
      refine ⟨?_, List.filter_eq_self.mp hfilter⟩
      intro ht0
      rw [ht0] at hc
      exact hc (by simp)

theorem joinDots_mem : ∀ {ts : List (List Char)} {c : Char}, c ∈ joinDots ts →
    c = '.' ∨ ∃ t ∈ ts, c ∈ t := by
  intro ts
  induction ts with
  | nil => intro c hc; simp [joinDots] at hc
  | cons t ts ih =>
    intro c hc
    cases ts with
    | nil =>
      right; exact ⟨t, by simp, by simpa [joinDots] using hc⟩
    | cons t₂ ts₂ =>
      simp only [joinDots, List.mem_append, List.mem_cons] at hc
      rcases hc with hct | rfl | hcj
      · right; exact ⟨t, by simp, hct⟩
      · left; rfl
      · rcases ih (by simpa [joinDots] using hcj) with hd | ⟨u, hu, hcu⟩
        · left; exact hd
        · right; exact ⟨u, by simp [hu], hcu⟩

theorem joinDots_ne_nil {t : List Char} {ts : List (List Char)} (h : t ≠ []) :
    joinDots (t :: ts) ≠ [] := by
  cases ts with
  | nil => simpa [joinDots] using h
  | cons t₂ ts₂ => simp [joinDots]

/-- On a nonempty input free of Python whitespace, `tokenize` is the run
split followed by segment normalization (the strip is the identity and the
empty-input guard does not fire). -/
theorem tokenize_of_clean {l : List Char} (hl : l ≠ [])
    (hns : ∀ c ∈ l, isPySpace c = false) :
    tokenize l = (splitRuns (fun c => !isTokDelim c) l).filterMap normalizeSeg := by
  simp only [tokenize]
  rw [pyStrip_eq_self hns, if_neg hl]

/-- C3 — counterexample.  The claim asserts idempotence for every input, but
`tokenize "values"` yields the single token `"value"` (the bare-`s`
de-pluralization fires), and re-tokenizing the re-joined output drops that
token entirely because `"value"` is the tokenizer's literal stop word. -/
theorem c3_counterexample :
    tokenize "values".data = ["value".data] ∧
    tokenize (joinDots (tokenize "values".data)) ≠ tokenize "values".data := by
  decide

/-- C3 — amended claim: tokenizing the `'.'`-joined output of `tokenize x`
yields the same ordered token sequence, provided every token of
`tokenize x` is a fixed point of the segment normalizer (that is, no token
is the stop word `"value"` or still carries a plural suffix that a second
normalization pass would strip, as happens for inputs such as `"values"`
or `"class"`). -/
theorem c3_amended (x : List Char)
    (h : ∀ t ∈ tokenize x, normalizeSeg t = some t) :
    tokenize (joinDots (tokenize x)) = tokenize x := by
  have hspec : ∀ t ∈ tokenize x, t ≠ [] ∧ ∀ c ∈ t, isAsciiAlnum c = true :=
    fun t ht => normSeg_fix_spec (h t ht)
  have hnospace : ∀ c ∈ joinDots (tokenize x), isPySpace c = false := by
    intro c hc
    rcases joinDots_mem hc with rfl | ⟨t, ht, hct⟩
    · decide
    · exact alnum_not_pyspace ((hspec t ht).2 c hct)
  by_cases hts0 : tokenize x = []
  · rw [hts0]
    show tokenize (joinDots []) = []
    decide
  · obtain ⟨t, ts, hcons⟩ := List.exists_cons_of_ne_nil hts0
    have hne : joinDots (tokenize x) ≠ [] := by
      rw [hcons]
      exact joinDots_ne_nil (hspec t (by rw [hcons]; simp)).1
    rw [tokenize_of_clean hne hnospace]
    rw [@splitRuns_roundtrip (fun c => !isTokDelim c) (by decide) (tokenize x)
      (fun u hu => ⟨(hspec u hu).1,
        fun c hc => by simp [alnum_not_delim ((hspec u hu).2 c hc)]⟩)]
    exact filterMap_id_of (tokenize x) h

/-- C3 witness input: both tokens of `"Customer Name"` are fixed points of
the segment normalizer. -/
theorem c3_amended_witness :
    (∀ t ∈ tokenize "Customer Name".data, normalizeSeg t = some t) ∧
    tokenize (joinDots (tokenize "Customer Name".data)) =
      tokenize "Customer Name".data :=
  ⟨by decide, c3_amended "Customer Name".data (by decide)⟩

/-- The de-pluralization rules exactly as C5 words them: a trailing `"ies"`
becomes `"y"`; a trailing `"ses"` has its final `"s"` dropped; a trailing
`"s"` is dropped when the segment length exceeds 3 (the length condition is
attached to the bare-`s` rule only). -/
def claimDeplural (l : List Char) : List Char :=
  if "ies".data.isSuffixOf l then l.dropLast.dropLast.dropLast ++ ['y']
  else if "ses".data.isSuffixOf l then l.dropLast
  else if "s".data.isSuffixOf l && decide (l.length > 3) then l.dropLast
  else l

/-- The per-segment normalization exactly as C5 words it: strip
non-alphanumerics, lower-case, drop the stop word `"value"`, then apply
`claimDeplural`. -/
def claimNormalizeSeg (part : List Char) : Option (List Char) :=
  let cleaned := part.filter isAsciiAlnum
  if cleaned = [] then none
  else
    let lower := cleaned.map Char.toLower
    if lower = "value".data then none
    else some (claimDeplural lower)

/-- C5 — counterexample.  On the segment `"buses"` the code drops the
trailing `"es"` (`lower[:-2]`), producing `"bus"`, while the claim's
`"ses"` rule (drop the final `"s"`) would produce `"buse"`. -/
theorem c5_counterexample :
    normalizeSeg "buses".data = some "bus".data ∧
    claimNormalizeSeg "buses".data = some "buse".data ∧
    normalizeSeg "buses".data ≠ claimNormalizeSeg "buses".data := by
  decide

/-- The de-pluralization rules as amended to match the code: every rule
applies only when the segment length exceeds 3, and the `"ses"` rule drops
the trailing `"es"` (two characters), not just the final `"s"`. -/
def amendedDeplural (l : List Char) : List Char :=
  if decide (l.length ≤ 3) then l
  else if "ies".data.isSuffixOf l then l.dropLast.dropLast.dropLast ++ ['y']
  else if "ses".data.isSuffixOf l then l.dropLast.dropLast
  else if "s".data.isSuffixOf l then l.dropLast
  else l

/-- Segment normalization with the amended de-pluralization rules. -/
def amendedNormalizeSeg (part : List Char) : Option (List Char) :=
  let cleaned := part.filter isAsciiAlnum
  if cleaned = [] then none
  else
    let lower := cleaned.map Char.toLower
    if lower = "value".data then none
    else some (amendedDeplural lower)

theorem dropLast_dropLast (l : List Char) :
    l.dropLast.dropLast = l.take (l.length - 2) := by
  rw [List.dropLast_eq_take, List.dropLast_eq_take, List.length_take, List.take_take]
  congr 1
  omega

theorem dropLast_dropLast_dropLast (l : List Char) :
    l.dropLast.dropLast.dropLast = l.take (l.length - 3) := by
  rw [dropLast_dropLast, List.dropLast_eq_take, List.length_take, List.take_take]
  congr 1
  omega

theorem deplural_eq_amended (l : List Char) : deplural l = amendedDeplural l := by
  unfold deplural amendedDeplural
  by_cases h3 : 3 < l.length
  · have hd1 : decide (l.length > 3) = true := decide_eq_true h3
    have hd2 : decide (l.length ≤ 3) = false := decide_eq_false (by omega)
    cases hies : "ies".data.isSuffixOf l with
    | true => simp [hies, hd1, hd2, dropLast_dropLast_dropLast]
    | false =>
      cases hses : "ses".data.isSuffixOf l with
      | true => simp [hies, hses, hd1, hd2, dropLast_dropLast]
      | false =>
        cases hs : "s".data.isSuffixOf l with
        | true => simp [hies, hses, hs, hd1, hd2, List.dropLast_eq_take]
        | false => simp [hies, hses, hs, hd1, hd2]
  · have hd1 : decide (l.length > 3) = false := decide_eq_false h3
    have hd2 : decide (l.length ≤ 3) = true := decide_eq_true (by omega)
    simp [hd1, hd2]

/-- C5 — amended claim: for every raw segment the tokenizer strips
non-alphanumeric characters, lower-cases, drops the literal stop word
`"value"`, and de-pluralizes with every rule gated on segment length > 3:
trailing `"ies"` becomes `"y"`, trailing `"ses"` drops the trailing `"es"`,
trailing `"s"` is dropped. -/
theorem c5_amended (part : List Char) :
    normalizeSeg part = amendedNormalizeSeg part := by
  unfold normalizeSeg amendedNormalizeSeg
  by_cases hc : part.filter isAsciiAlnum = []
  · simp [hc]
  · rw [if_neg hc, if_neg hc]
    by_cases hv : (part.filter isAsciiAlnum).map Char.toLower = "value".data
    · simp [hv]
    · rw [if_neg hv, if_neg hv, deplural_eq_amended]

/-- The claim-relevant columns of a `knx_doc_extended` row as loaded by
`EtnCdmMappingUpserter._load_source_data`. -/
structure KnxRow where
  table_name : String
  field_name : String
  data_type : String
deriving DecidableEq

/-- The claim-relevant columns of an `etn_doc_mappings` row. -/
structure EtnRow where
  knx_table : String
  target_field : String
deriving DecidableEq

/-- `data_type_lower.startswith('reference')` from `_load_source_data`
(also the reference test of `_expand_reference_recursively`). -/
def isReferenceType (dt : String) : Bool :=
  "reference".data.isPrefixOf (dt.data.map Char.toLower)

/-- The load-stage filter of `_load_source_data`: KNX extended rows whose
lower-cased data type starts with `"reference"` are removed before any
matching happens. -/
def loadFilterRefs (rows : List KnxRow) : List KnxRow :=
  rows.filter (fun r => !isReferenceType r.data_type)

/-- A prepared KNX record as built by `_prepare_knx_record` (the columns the
matcher reads). -/
structure KnxRec where
  raw : KnxRow
  field_name_trim : List Char
  normalized_tokens : List (List Char)
  normalized_keys : List (List Char)
  token_bag : List (List Char)
deriving DecidableEq

/-- A prepared ETN record as built by `_prepare_etn_record`. -/
structure EtnRec where
  raw : EtnRow
  field_name_trim : List Char
  normalized_tokens : List (List Char)
  normalized_keys : List (List Char)
  token_bag : List (List Char)
deriving DecidableEq

/-- `_prepare_knx_record`: trim the field name, tokenize it, and derive the
suffix keys and token bag. -/
def prepareKnx (row : KnxRow) : KnxRec :=
  let fnt := pyStrip row.field_name.data
  { raw := row, field_name_trim := fnt, normalized_tokens := tokenize fnt,
    normalized_keys := generateKeys (tokenize fnt), token_bag := tokenBag fnt }

/-- `_prepare_etn_record`: trim the target field, tokenize it, and derive the
suffix keys and token bag. -/
def prepareEtn (row : EtnRow) : EtnRec :=
  let fnt := pyStrip row.target_field.data
  { raw := row, field_name_trim := fnt, normalized_tokens := tokenize fnt,
    normalized_keys := generateKeys (tokenize fnt), token_bag := tokenBag fnt }

/-- `len(set(a) & set(b))` for list-modelled sets. -/
def setInterLen (a b : List (List Char)) : Nat :=
  (a.dedup.filter (fun x => decide (x ∈ b))).length

/-- Non-empty intersection test for list-modelled sets
(`a.intersection(b)` used in boolean position). -/
def hasCommon (a b : List (List Char)) : Bool :=
  a.any (fun x => decide (x ∈ b))

/-- `EtnCdmMappingUpserter._score_match`: 5 per shared normalized token, 10
for any shared suffix key, 2 per shared token-bag entry, 15 for a
case-folded exact name match. -/
def scoreMatch (e : EtnRec) (k : KnxRec) : Nat :=
  let overlap := setInterLen e.normalized_tokens k.normalized_tokens
  let keyBonus := if hasCommon e.normalized_keys k.normalized_keys then 10 else 0
  let bagOverlap := setInterLen e.token_bag k.token_bag
  let exactBonus :=
    if e.field_name_trim.map Char.toLower = k.field_name_trim.map Char.toLower then 15 else 0
  overlap * 5 + keyBonus + bagOverlap * 2 + exactBonus

/-- The loop of `_find_best_match`: scan the candidates in order, replacing
the best candidate whenever the score strictly improves on the best score
so far (which starts at 0).  Candidates are indexed, the index modelling the
identity of the corresponding Python record dictionary. -/
def findBestAux (e : EtnRec) :
    List (Nat × KnxRec) → Option (Nat × KnxRec) → Nat → Option (Nat × KnxRec)
  | [], best, _ => best
  | ik :: rest, best, bestScore =>
    if scoreMatch e ik.2 > bestScore then findBestAux e rest (some ik) (scoreMatch e ik.2)
    else findBestAux e rest best bestScore

/-- `EtnCdmMappingUpserter._find_best_match`. -/
def findBestMatch (e : EtnRec) (knxs : List KnxRec) : Option (Nat × KnxRec) :=
  findBestAux e knxs.enum none 0

/-- One entry of the list produced by `_reconcile_table`.  `etn` and `knx`
carry the list index of the record they point at (Python object identity). -/
structure MatchPayload where
  table_name : String
  etn : Option (Nat × EtnRec)
  knx : Option (Nat × KnxRec)
  match_type : String
deriving DecidableEq

/-- `EtnCdmMappingUpserter._reconcile_table`: one payload per ETN record
(matched to its best-scoring KNX record, if any), then one `knx_only`
payload per KNX record not used by any ETN payload.  The Python membership
test `any(match['knx'] is knx_record ...)` runs over the payloads
accumulated so far, but the `knx_only` payloads appended earlier can never
alias the record currently probed (each holds a strictly earlier index), so
testing against the ETN payloads alone is equivalent. -/
def reconcileTable (t : String) (knxs : List KnxRec) (etns : List EtnRec) :
    List MatchPayload :=
  let etnMatches := etns.enum.map (fun je =>
    let best := findBestMatch je.2 knxs
    { table_name := t, etn := some je, knx := best,
      match_type := if best.isSome then "matched" else "unmatched" : MatchPayload })
  let knxOnly := (knxs.enum.filter (fun ik =>
      !(etnMatches.any (fun m => decide (m.knx = some ik))))).map (fun ik =>
    { table_name := t, etn := none, knx := some ik, match_type := "knx_only" : MatchPayload })
  etnMatches ++ knxOnly

/-- `EtnCdmMappingUpserter._determine_match_status` (its two record arguments
are unused by the source and are omitted). -/
def determineMatchStatus (match_type : String) : String :=
  if match_type = "matched" then "MATCHED"
  else if match_type = "knx_only" then "KNX_ONLY"
  else "ETN_ONLY"

/-- Code-point lexicographic comparison, the order Python's `sorted` uses on
strings. -/
def lexLt : List Char → List Char → Bool
  | [], [] => false
  | [], _ :: _ => true
  | _ :: _, [] => false
  | a :: as, b :: bs => if a = b then lexLt as bs else decide (a.toNat < b.toNat)

/-- `sorted(set(knx table names) | set(etn declared table names))` from
`_match_records`. -/
def sortedTableNames (knxRows : List KnxRow) (etnRows : List EtnRow) : List String :=
  List.insertionSort (fun a b => !(lexLt b.data a.data) = true)
    ((knxRows.map KnxRow.table_name ++ etnRows.map EtnRow.knx_table).dedup)

/-- `EtnCdmMappingUpserter._match_records`: group both sources by table name
(taken in sorted order), prepare the per-table records, and reconcile each
table, concatenating the payloads. -/
def matchRecords (knxRows : List KnxRow) (etnRows : List EtnRow) : List MatchPayload :=
  (sortedTableNames knxRows etnRows).flatMap (fun t =>
    reconcileTable t
      ((knxRows.filter (fun r => decide (r.table_name = t))).map prepareKnx)
      ((etnRows.filter (fun r => decide (r.knx_table = t))).map prepareEtn))

example : scoreMatch (prepareEtn ⟨"T", "CustomerName"⟩)
    (prepareKnx ⟨"T", "CustomerName", "string"⟩) = 32 := by decide
example : scoreMatch (prepareEtn ⟨"T", "Name"⟩)
    (prepareKnx ⟨"T", "CustomerName", "string"⟩) = 0 := by decide

/-- C1 — counterexample.  `_find_best_match` is called independently for each
ETN record and never removes a consumed KNX record, so with one KNX field
`CustomerName` and two ETN targets `CustomerName` and `CustomerNames` the
single KNX record is the left member of two MATCHED payloads. -/
theorem c1_counterexample :
    ((reconcileTable "T" [prepareKnx ⟨"T", "CustomerName", "string"⟩]
        [prepareEtn ⟨"T", "CustomerName"⟩, prepareEtn ⟨"T", "CustomerNames"⟩]).filter
      (fun p => decide (determineMatchStatus p.match_type = "MATCHED") &&
        decide (p.knx = some (0, prepareKnx ⟨"T", "CustomerName", "string"⟩)))).length = 2 := by
  decide

theorem filterMap_etn_knxOnly (l : List (Nat × KnxRec)) (t : String) :
    (l.map (fun ik =>
      { table_name := t, etn := none, knx := some ik,
        match_type := "knx_only" : MatchPayload })).filterMap MatchPayload.etn = [] := by
  induction l with
  | nil => rfl
  | cons a r ih => simp [ih]

/-- C1 — amended claim: reconciliation is exclusive on the right (ETN) side —
each ETN mapping record appears in exactly one payload, so in particular no
ETN record is the right member of more than one MATCHED record — but a KNX
field record may be the left member of several MATCHED records, as the
counterexample shows. -/
theorem c1_amended (t : String) (ks : List KnxRec) (es : List EtnRec) :
    ((reconcileTable t ks es).filterMap MatchPayload.etn).Nodup := by
  unfold reconcileTable
  rw [List.filterMap_append, List.filterMap_map, filterMap_etn_knxOnly]
  have he : (es.enum.filterMap
      ((fun p => MatchPayload.etn p) ∘ (fun je =>
        { table_name := t, etn := some je, knx := findBestMatch je.2 ks,
          match_type := if (findBestMatch je.2 ks).isSome then "matched" else "unmatched"
          : MatchPayload }))) = es.enum.filterMap (fun je => some je) := rfl
  rw [he]
  have he2 : es.enum.filterMap (fun je => some je) = es.enum := by
    induction es.enum with
    | nil => rfl
    | cons a r ih => simp [ih]
  rw [he2, List.append_nil]
  have hmap : (es.enum.map Prod.fst).Nodup := by
    rw [List.enum_map_fst]; exact List.nodup_range _
  exact List.Nodup.of_map Prod.fst hmap

/-- C4 — tier precedence example: with left `["CustomerName"]` and right
`["CustomerName", "Name"]` the exact-name pair is MATCHED (score 32 via the
15-point exact-fold bonus plus token/key/bag overlap), `Name` scores 0
against the only KNX record and stays a right-only (`ETN_ONLY`) record, and
no `knx_only` residue is produced. -/
theorem c4_tier_precedence :
    (reconcileTable "T" [prepareKnx ⟨"T", "CustomerName", "string"⟩]
        [prepareEtn ⟨"T", "CustomerName"⟩, prepareEtn ⟨"T", "Name"⟩]).map
      (fun p => (determineMatchStatus p.match_type, p.etn.map Prod.fst,
        p.knx.map Prod.fst)) =
    [("MATCHED", some 0, some 0), ("ETN_ONLY", some 1, none)] := by
  decide

/-- C9 — determinism: the reconciliation of a table is a pure function of the
table name and the two ordered record lists; two runs on identical inputs
produce identical payload lists (the embedding carries no randomness or
clock, mirroring the source, which reads nothing but its arguments). -/
theorem c9_deterministic (t₁ : String) (ks₁ : List KnxRec) (es₁ : List EtnRec)
    (t₂ : String) (ks₂ : List KnxRec) (es₂ : List EtnRec)
    (ht : t₁ = t₂) (hk : ks₁ = ks₂) (he : es₁ = es₂) :
    reconcileTable t₁ ks₁ es₁ = reconcileTable t₂ ks₂ es₂ := by
  subst ht; subst hk; subst he; rfl

/-- C9 witness at a concrete run. -/
theorem c9_witness :
    reconcileTable "T" [prepareKnx ⟨"T", "CustomerName", "string"⟩]
        [prepareEtn ⟨"T", "Name"⟩] =
      reconcileTable "T" [prepareKnx ⟨"T", "CustomerName", "string"⟩]
        [prepareEtn ⟨"T", "Name"⟩] :=
  c9_deterministic "T" [prepareKnx ⟨"T", "CustomerName", "string"⟩]
    [prepareEtn ⟨"T", "Name"⟩] "T" [prepareKnx ⟨"T", "CustomerName", "string"⟩]
    [prepareEtn ⟨"T", "Name"⟩] rfl rfl rfl

theorem findBestAux_mem (e : EtnRec) :
    ∀ (l : List (Nat × KnxRec)) (best : Option (Nat × KnxRec)) (bs : Nat)
      (ik : Nat × KnxRec), findBestAux e l best bs = some ik →
      best = some ik ∨ ik ∈ l := by
  intro l
  induction l with
  | nil => intro best bs ik h; left; exact h
  | cons a rest ih =>
    intro best bs ik h
    unfold findBestAux at h
    by_cases hs : scoreMatch e a.2 > bs
    · rw [if_pos hs] at h
      rcases ih (some a) (scoreMatch e a.2) ik h with ha | hm
      · right
        have hai : a = ik := Option.some.inj ha
        rw [← hai]
        exact List.mem_cons_self a rest
      · right; exact List.mem_cons_of_mem a hm
    · rw [if_neg hs] at h
      rcases ih best bs ik h with ha | hm
      · left; exact ha
      · right; exact List.mem_cons_of_mem a hm

theorem findBestMatch_mem {e : EtnRec} {ks : List KnxRec} {ik : Nat × KnxRec}
    (h : findBestMatch e ks = some ik) : ik ∈ ks.enum := by
  rcases findBestAux_mem e ks.enum none 0 ik h with ha | hm
  · exact absurd ha (by simp)
  · exact hm

theorem reconcileTable_knx_mem {t : String} {ks : List KnxRec} {es : List EtnRec}
    {p : MatchPayload} (hp : p ∈ reconcileTable t ks es)
    {ik : Nat × KnxRec} (hk : p.knx = some ik) : ik ∈ ks.enum := by
  unfold reconcileTable at hp
  rcases List.mem_append.mp hp with hm | hm
  · obtain ⟨je, _, hpe⟩ := List.mem_map.mp hm
    rw [← hpe] at hk
    exact findBestMatch_mem hk
  · obtain ⟨ik', hik', hpe⟩ := List.mem_map.mp hm
    rw [← hpe] at hk
    have : ik' = ik := Option.some.inj hk
    rw [← this]
    exact (List.mem_filter.mp hik').1

/-- C10 — reference-typed rows never enter matching: with the load-stage
filter applied to the KNX side, every payload produced by the per-table
reconciliation driver that carries a left (KNX) member carries a record
whose raw data type does not start with `"reference"` (case-insensitive). -/
theorem c10_no_reference_left (knxRows : List KnxRow) (etnRows : List EtnRow)
    (p : MatchPayload) (hp : p ∈ matchRecords (loadFilterRefs knxRows) etnRows)
    (i : Nat) (k : KnxRec) (hk : p.knx = some (i, k)) :
    isReferenceType k.raw.data_type = false := by
  obtain ⟨t, _, hpt⟩ := List.mem_flatMap.mp hp
  have hik := reconcileTable_knx_mem hpt hk
  have hsnd : (i, k).2 ∈ ((loadFilterRefs knxRows).filter
      (fun r => decide (r.table_name = t))).map prepareKnx := by
    rw [← List.enum_map_snd (((loadFilterRefs knxRows).filter
      (fun r => decide (r.table_name = t))).map prepareKnx)]
    exact List.mem_map_of_mem Prod.snd hik
  obtain ⟨row, hrow, hpk⟩ := List.mem_map.mp hsnd
  have hrow2 : row ∈ loadFilterRefs knxRows := (List.mem_filter.mp hrow).1
  have hfilt := (List.mem_filter.mp hrow2).2
  have hraw : k.raw = row := by
    have hpk2 : prepareKnx row = k := hpk
    rw [← hpk2]
    rfl
  rw [hraw]
  simpa using hfilt

/-- C10 witness: a concrete pipeline run whose single left-carrying payload
holds the surviving non-reference KNX row. -/
theorem c10_witness :
    isReferenceType (prepareKnx ⟨"T", "CustomerName", "string"⟩).raw.data_type = false :=
  c10_no_reference_left
    [⟨"T", "CustomerName", "string"⟩, ⟨"T", "Part", "Reference to Part"⟩]
    [⟨"T", "CustomerName"⟩]
    { table_name := "T", etn := some (0, prepareEtn ⟨"T", "CustomerName"⟩),
      knx := some (0, prepareKnx ⟨"T", "CustomerName", "string"⟩),
      match_type := "matched" }
    (by decide) 0 (prepareKnx ⟨"T", "CustomerName", "string"⟩) (by decide)

/-- Python `str.isupper()` (ASCII): at least one cased character and no cased
character lowercase. -/
def pyIsUpper (l : List Char) : Bool :=
  l.any Char.isAlpha && l.all (fun c => !c.isAlpha || c.isUpper)

/-- Python `str.islower()` (ASCII): at least one cased character and no cased
character uppercase. -/
def pyIsLower (l : List Char) : Bool :=
  l.any Char.isAlpha && l.all (fun c => !c.isAlpha || c.isLower)

/-- `EtnCdmMappingUpserter._tokenize_identifier_parts`: split on
`[^A-Za-z0-9]+`, keep the non-empty parts (the per-part `strip()` is a
no-op on alphanumeric runs), and pair each with its upper-cased form. -/
def tokenizeIdParts (value : String) : List (List Char × List Char) :=
  if value = "" then []
  else (splitRuns isAsciiAlnum value.data).map (fun part => (part.map Char.toUpper, part))

/-- `EtnCdmMappingUpserter._is_valid_identifier`: length at least 3 and a
full match of `[A-Z0-9]+`. -/
def isValidIdentifier (token : List Char) : Bool :=
  decide (3 ≤ token.length) && token.all (fun c => c.isUpper || c.isDigit)

/-- `EtnCdmMappingUpserter.SAP_TABLE_HINTS`: lower-cased ERP table mnemonic
mapped to (transaction code, screen name). -/
def SAP_TABLE_HINTS : List (String × String × String) :=
  [("kna1", "XD03", "Display Customer (General Data)"),
   ("knvv", "XD03", "Display Customer (Sales Area Data)"),
   ("mara", "MM03", "Display Material"),
   ("marc", "MM03", "Display Material - Plant Data"),
   ("mbew", "MM03", "Display Material Valuation"),
   ("makt", "MM03", "Display Material Description"),
   ("tvkot", "VK01", "Maintain Sales Document Types"),
   ("t438m", "MD04", "Display Stock/Requirements List")]

/-- `key in SAP_TABLE_HINTS`. -/
def inHints (key : String) : Bool :=
  SAP_TABLE_HINTS.any (fun h => h.1 == key)

/-- `SAP_TABLE_HINTS.get(key, (None, None))`. -/
def hintsGet (key : String) : Option String × Option String :=
  match SAP_TABLE_HINTS.find? (fun h => h.1 == key) with
  | some h => (some h.2.1, some h.2.2)
  | none => (none, none)

/-- The per-token filter both passes of `_select_sap_table` share: a valid
identifier whose original spelling is fully upper- or fully lower-case. -/
def tokenQualifies (tu orig : List Char) : Bool :=
  isValidIdentifier tu && (pyIsUpper orig || pyIsLower orig)

/-- One pass of `_select_sap_table` over the labelled token lists: the first
qualifying token (additionally required to be a hint-table key when
`checkHint` is set) is returned with its source label. -/
def findTableToken (checkHint : Bool) :
    List (String × List (List Char × List Char)) → Option (List Char × String)
  | [] => none
  | (label, toks) :: rest =>
    match toks.find? (fun p =>
        tokenQualifies p.1 p.2 &&
          (!checkHint || inHints (String.mk (p.1.map Char.toLower)))) with
    | some p => some (p.1, label)
    | none => findTableToken checkHint rest

/-- `EtnCdmMappingUpserter._select_sap_table`: first a pass that accepts only
hint-table hits (confident), then a pass that accepts any valid identifier
(not confident). -/
def selectSapTable (sources : List (String × String)) :
    Option (List Char) × Option String × Bool :=
  let tokenized := sources.map (fun ls => (ls.1, tokenizeIdParts ls.2))
  match findTableToken true tokenized with
  | some tl => (some tl.1, some tl.2, true)
  | none =>
    match findTableToken false tokenized with
    | some tl => (some tl.1, some tl.2, false)
    | none => (none, none, false)

/-- `EtnCdmMappingUpserter._collect_maestro_tokens`: the valid-identifier
upper-cased tokens of all the given values (a set, modelled as a list used
only through membership and non-emptiness). -/
def collectMaestroTokens (values : List String) : List (List Char) :=
  values.flatMap (fun v => (tokenizeIdParts v).filterMap
    (fun p => if isValidIdentifier p.1 then some p.1 else none))

/-- The capitalized-word test of `_select_sap_field`'s `-2` branch:
`original[0].isalpha() and original[0].isupper() and original[1:].islower()`. -/
def isTitleLike (orig : List Char) : Bool :=
  match orig with
  | [] => false
  | c :: rest => c.isAlpha && c.isUpper && pyIsLower rest

/-- The score `_select_sap_field` assigns to the token at position `idx`:
+5 fully upper, +3 fully lower, −2 title-like; +1 for a digit; a positional
bonus `max(0, 3 − idx)`; +1 when the token also appears among the maestro
tokens (and that set is non-empty). -/
def sapFieldScore (idx : Nat) (tu orig : List Char)
    (maestroTokens : List (List Char)) : Int :=
  (if pyIsUpper orig then 5
   else if pyIsLower orig then 3
   else if isTitleLike orig then -2 else 0)
  + (if orig.any Char.isDigit then 1 else 0)
  + max 0 (3 - (idx : Int))
  + (if maestroTokens ≠ [] ∧ tu ∈ maestroTokens then 1 else 0)

/-- `EtnCdmMappingUpserter._select_sap_field`: tokenize the source field,
skip invalid tokens, the already-chosen table token and mixed-case
spellings, score the rest, and keep the first highest-scoring token. -/
def selectSapField (primaryTable : Option (List Char)) (sourceField : String)
    (mfn mfd mtn : String) : Option (List Char) × String :=
  let tokens := tokenizeIdParts sourceField
  if tokens = [] then (none, "")
  else
    let primaryUpper := primaryTable.map (fun t => t.map Char.toUpper)
    let maestroTokens := collectMaestroTokens [mfn, mfd, mtn]
    let best := tokens.enum.foldl (fun acc itok =>
      let tu := itok.2.1
      let orig := itok.2.2
      if !isValidIdentifier tu then acc
      else if primaryUpper = some tu then acc
      else if !(pyIsUpper orig || pyIsLower orig) then acc
      else
        let score := sapFieldScore itok.1 tu orig maestroTokens
        match acc with
        | none => some (tu, score)
        | some bts => if score > bts.2 then some (tu, score) else some bts) none
    match best with
    | some bts => (some bts.1, "source_field")
    | none => (none, "")

/-- `'+'.join(strategy_parts)`. -/
def joinPlus : List String → String
  | [] => ""
  | [p] => p
  | p :: q :: r => p ++ "+" ++ joinPlus (q :: r)

/-- The fixed source-priority list `_derive_sap_strategy` hands to
`_select_sap_table`. -/
def sapSources (primaryTable sourceField mfn mfd mtn : String) :
    List (String × String) :=
  [("maestro_field_name", mfn),
   ("source_field", sourceField),
   ("maestro_field_description", mfd),
   ("maestro_table_name", mtn),
   ("primary_table_name", primaryTable)]

/-- The result record of `_derive_sap_strategy`. -/
structure SapStrategy where
  erp_tcode : Option String
  erp_screen_name : Option String
  erp_screen_field_name : Option (List Char)
  strategy : Option String
deriving DecidableEq

/-- `EtnCdmMappingUpserter._derive_sap_strategy`.  Missing/None text inputs
behave exactly like empty strings in the source (every check is a Python
truthiness test), so inputs are plain strings with `""` for absent.  When a
table token is selected, its source label is always present; the `"None"`
fallback in the label composition mirrors how Python would format an absent
label and is unreachable. -/
def deriveSapStrategy (primaryTable sourceField mfn mfd mtn : String) :
    SapStrategy :=
  if primaryTable = "" ∧ sourceField = "" then ⟨none, none, none, none⟩
  else
    let sel := selectSapTable (sapSources primaryTable sourceField mfn mfd mtn)
    let hints := match sel.1 with
      | some pt => hintsGet (String.mk (pt.map Char.toLower))
      | none => (none, none)
    let parts₁ : List String := match sel.1 with
      | some _ =>
        ((match sel.2.1 with | some ts => ts | none => "None") ++ "_table_inferred") ::
          (if sel.2.2 then ["hint_confident"] else [])
      | none => []
    let fieldSel := selectSapField sel.1 sourceField mfn mfd mtn
    let parts := parts₁ ++ (match fieldSel.1 with
      | some _ => [fieldSel.2 ++ "_field_inferred"]
      | none => [])
    let strategy := if parts = [] then "insufficient_source_metadata" else joinPlus parts
    ⟨hints.1, hints.2, fieldSel.1, some strategy⟩

/-- C6 — SAP inference example: `source_table="KNA1"`, `source_field="KUNNR"`
and all other text inputs empty yields the `kna1` hint-table entry and the
identifier-valid field token `KUNNR`. -/
theorem c6_sap_example :
    (deriveSapStrategy "KNA1" "KUNNR" "" "" "").erp_tcode = some "XD03" ∧
    (deriveSapStrategy "KNA1" "KUNNR" "" "" "").erp_screen_name =
      some "Display Customer (General Data)" ∧
    (deriveSapStrategy "KNA1" "KUNNR" "" "" "").erp_screen_field_name =
      some "KUNNR".data := by
  decide

/-- C7 — counterexample.  With both the source table and the source field
empty, nothing can be inferred (no table identifier, no field identifier —
every output component is None), yet the strategy label is None, not
`"insufficient_source_metadata"`: the early exit fires before the label is
composed. -/
theorem c7_counterexample :
    (deriveSapStrategy "" "" "" "" "").erp_tcode = none ∧
    (deriveSapStrategy "" "" "" "" "").erp_screen_field_name = none ∧
    (deriveSapStrategy "" "" "" "" "").strategy = none ∧
    (deriveSapStrategy "" "" "" "" "").strategy ≠
      some "insufficient_source_metadata" := by
  decide

/-- C7 — amended claim: whenever at least one of the source-table and
source-field inputs is non-empty (so the early exit does not fire) and the
inference still finds no table identifier and no field identifier, the
strategy label is exactly `"insufficient_source_metadata"`; when both
inputs are empty the label is None instead. -/
theorem c7_amended (primaryTable sourceField mfn mfd mtn : String)
    (hne : ¬(primaryTable = "" ∧ sourceField = ""))
    (htab : (selectSapTable (sapSources primaryTable sourceField mfn mfd mtn)).1 = none)
    (hfld : (selectSapField none sourceField mfn mfd mtn).1 = none) :
    (deriveSapStrategy primaryTable sourceField mfn mfd mtn).strategy =
      some "insufficient_source_metadata" := by
  unfold deriveSapStrategy
  rw [if_neg hne]
  simp [htab, hfld]

/-- C7 witness: `primary_table="ab"` (too short to be a valid identifier) and
empty source field reach the `"insufficient_source_metadata"` label. -/
theorem c7_witness :
    (deriveSapStrategy "ab" "" "" "" "").strategy =
      some "insufficient_source_metadata" :=
  c7_amended "ab" "" "" "" "" (by decide) (by decide) (by decide)

/-- Is `sub` a prefix of `l`?  (Helper for the substring test.) -/
def isSubAt : List Char → List Char → Bool
  | [], _ => true
  | _ :: _, [] => false
  | a :: as, b :: bs => a == b && isSubAt as bs

/-- Python `sub in s` on strings: `sub` occurs contiguously in `l`. -/
def hasSub (sub : List Char) : List Char → Bool
  | [] => sub.isEmpty
  | b :: bs => isSubAt sub (b :: bs) || hasSub sub bs

/-- `export_to_excel.CRITICAL_NAME_SUBSTRINGS`. -/
def CRITICAL_NAME_SUBSTRINGS : List String :=
  ["Name", "Site", "Date", "LeadTime", "Number"]

/-- `ExcelExporter._determine_field_category`: Identifier when the Maestro
key cell is truthy; Optional/Reference when the (stripped, upper-cased)
match status is ETN_ONLY; Critical when the Maestro field name contains a
critical substring or `"LT"`; Functional Enabler when the status is
MATCHED; otherwise none.  `maestro_is_key` is the truthiness
`bool(row.get("Maestro Is Key", False))` of the row's cell. -/
def determineFieldCategory (maestro_is_key : Bool) (match_status : String)
    (maestro_field_name : String) : Option String :=
  if maestro_is_key then some "Identifier"
  else
    let status := String.mk ((pyStrip match_status.data).map Char.toUpper)
    if status = "ETN_ONLY" then some "Optional/Reference"
    else if CRITICAL_NAME_SUBSTRINGS.any
        (fun sub => hasSub sub.data maestro_field_name.data)
        || hasSub "LT".data maestro_field_name.data then some "Critical"
    else if status = "MATCHED" then some "Functional Enabler"
    else none

example : determineFieldCategory false "MATCHED" "PostingDate" = some "Critical" := by decide
example : determineFieldCategory false "MATCHED" "Foo" = some "Functional Enabler" := by decide

/-- C8 — category derivation priority: a row whose match status is MATCHED
and whose canonical field is flagged key is categorized Identifier no
matter what the field name contains — the key test is the first branch. -/
theorem c8_identifier_priority (maestro_is_key : Bool)
    (match_status maestro_field_name : String)
    (hkey : maestro_is_key = true)
    (_hstatus : String.mk ((pyStrip match_status.data).map Char.toUpper) = "MATCHED") :
    determineFieldCategory maestro_is_key match_status maestro_field_name =
      some "Identifier" := by
  simp [determineFieldCategory, hkey]

/-- C8 witness: a MATCHED key-flagged row whose name contains the
Critical-signalling substring `"Date"` is still an Identifier. -/
theorem c8_witness :
    determineFieldCategory true "MATCHED" "PostingDate" = some "Identifier" :=
  c8_identifier_priority true "MATCHED" "PostingDate" rfl (by decide)

/-- A referenced-table field row as fetched inside
`_expand_reference_recursively` (columns of `knx_doc_columns` joined with
the referenced table's name; `is_key` is the raw text column). -/
structure RefField where
  field_name : List Char
  description : List Char
  data_type : List Char
  is_key : List Char
  is_calculated : Bool
  referenced_table_id : Option Nat
  ref_referenced_table : Option (List Char)
deriving DecidableEq

/-- `root_field_props`: the properties of the original reference field that
every terminal result inherits. -/
structure RootProps where
  table_id : Nat
  table_name : List Char
  is_key : List Char
  display_on_export : Bool
  created_at : List Char
  field_name : List Char
  referenced_table : Option (List Char)
  root_description : List Char
deriving DecidableEq

/-- One terminal row produced by the expansion. -/
structure ExtField where
  id : List Char
  table_id : Nat
  table_name : List Char
  field_name : List Char
  description : List Char
  data_type : List Char
  is_key : List Char
  is_calculated : Bool
  referenced_table : Option (List Char)
  is_extended : Bool
  display_on_export : Bool
  created_at : List Char
deriving DecidableEq

/-- `str(data_type).lower().startswith('reference')` on a character list
(the same check `isReferenceType` embeds for `String`). -/
def isReferenceTypeChars (dt : List Char) : Bool :=
  "reference".data.isPrefixOf (dt.map Char.toLower)

/-- Python `str.split('.')` (keeps empty pieces). -/
def splitOnDot : List Char → List (List Char)
  | [] => [[]]
  | c :: cs =>
    if c = '.' then [] :: splitOnDot cs
    else
      match splitOnDot cs with
      | [] => [[c]]
      | seg :: rest => (c :: seg) :: rest

/-- `'sep'.join(parts)`. -/
def joinSep (sep : List Char) : List (List Char) → List Char
  | [] => []
  | [p] => p
  | p :: q :: r => p ++ sep ++ joinSep sep (q :: r)

/-- `_clean_description`: strip a string; missing values behave as `""`. -/
def cleanDescription (v : List Char) : List Char := pyStrip v

/-- The terminal branch of `_expand_reference_recursively`: derive the
origin table and display path from the dotted path, optionally prefix the
root field name, indent with four spaces, and assemble the provenance
description from the root description and the `[From …]` context. -/
def mkTerminalField (fi : RefField) (path : List Char) (root : RootProps) :
    ExtField :=
  let pathParts := splitOnDot path
  let originTable :=
    if 2 ≤ pathParts.length then pathParts.getD (pathParts.length - 2) []
    else "Unknown".data
  let displaySegments := if 1 < pathParts.length then pathParts.drop 1 else pathParts
  let insertRoot : Bool :=
    (!root.field_name.isEmpty) &&
    (match root.referenced_table with | some rt => !rt.isEmpty | none => false) &&
    decide (root.referenced_table ≠ some root.field_name) &&
    (displaySegments.isEmpty || decide (displaySegments.getD 0 [] ≠ root.field_name))
  let displaySegments₂ :=
    if insertRoot then root.field_name :: displaySegments else displaySegments
  let displayPath := joinSep ['.'] displaySegments₂
  let rootDescription := cleanDescription root.root_description
  let originDescription := cleanDescription fi.description
  let originContext :=
    let base := "[From ".data ++ originTable ++ "]".data
    if originDescription = [] then base else base ++ ' ' :: originDescription
  let description :=
    joinSep "\n\n".data
      ([rootDescription, originContext].filter (fun p => !p.isEmpty))
  { id := "extended_".data ++ path,
    table_id := root.table_id,
    table_name := root.table_name,
    field_name := "    ".data ++ displayPath,
    description := description,
    data_type := fi.data_type,
    is_key := root.is_key,
    is_calculated := fi.is_calculated,
    referenced_table := fi.ref_referenced_table,
    is_extended := true,
    display_on_export := root.display_on_export,
    created_at := root.created_at }

/-- `_expand_reference_recursively` (identical in extend_knx_doc.py and
export_to_database.py): return `[]` when the remaining depth is exhausted;
return `[]` when the field's referenced-table id is already visited; return
the single formatted terminal row when the field is not a reference-typed
non-calculated field with a valid referenced-table id; otherwise recurse
into the referenced table's export-visible/key fields (supplied by `env`,
which stands for the ordered result of the SQL fetch), extending the path
and the per-branch visited set and decrementing the depth. -/
def expandRef (env : Nat → List RefField) :
    Nat → RefField → List Char → List Nat → RootProps → List ExtField
  | 0, _, _, _, _ => []
  | d + 1, fi, path, visited, root =>
    if (match fi.referenced_table_id with
        | some tid => decide (tid ∈ visited)
        | none => false) then []
    else if fi.data_type = [] ∨ isReferenceTypeChars fi.data_type = false ∨
        fi.is_calculated = true ∨ fi.referenced_table_id = none then
      [mkTerminalField fi path root]
    else
      match fi.referenced_table_id with
      | some tid =>
        (env tid).flatMap (fun rf =>
          expandRef env d rf (path ++ '.' :: rf.field_name) (tid :: visited) root)
      | none => []

/-- A concrete non-reference field (the terminal case's usual input). -/
def c2Field : RefField :=
  { field_name := "Name".data, description := "The part name".data,
    data_type := "string".data, is_key := "no".data, is_calculated := false,
    referenced_table_id := none, ref_referenced_table := none }

/-- A concrete reference field whose referenced table is already visited. -/
def c2CycField : RefField :=
  { field_name := "Part".data, description := "ref".data,
    data_type := "Reference to Part".data, is_key := "no".data,
    is_calculated := false, referenced_table_id := some 7,
    ref_referenced_table := some "Part".data }

/-- Concrete root-field properties for the expansion examples. -/
def c2Root : RootProps :=
  { table_id := 1, table_name := "Allocation".data, is_key := "no".data,
    display_on_export := true, created_at := "2024-01-01".data,
    field_name := "Part".data, referenced_table := some "PartTable".data,
    root_description := "Root description".data }

/-- C2 — counterexample.  At remaining depth 0 the expansion returns the
empty list, not the single-element formatted terminal result the claim
promises (the same holds for the visited-set cycle case). -/
theorem c2_counterexample :
    expandRef (fun _ => []) 0 c2Field "Allocation.PartTable".data [] c2Root = [] ∧
    ([] : List ExtField) ≠
      [mkTerminalField c2Field "Allocation.PartTable".data c2Root] := by
  exact ⟨rfl, by decide⟩

/-- C2 — amended claim: when the remaining depth is ≤ 0, or the field's
referenced-table-id is already in the visited set (a cycle), the recursive
reference expansion returns the EMPTY result list (the branch is silently
pruned); the field is returned as a single-element result formatted with
the full dotted path and provenance note only in the remaining terminal
case — depth available, no cycle, and the field is not a reference-typed
non-calculated field with a valid referenced-table-id. -/
theorem c2_amended :
    (∀ (env : Nat → List RefField) (fi : RefField) (path : List Char)
        (visited : List Nat) (root : RootProps),
      expandRef env 0 fi path visited root = []) ∧
    (∀ (env : Nat → List RefField) (fi : RefField) (path : List Char)
        (visited : List Nat) (root : RootProps) (d : Nat) (tid : Nat),
      fi.referenced_table_id = some tid → tid ∈ visited →
      expandRef env d fi path visited root = []) ∧
    (∀ (env : Nat → List RefField) (fi : RefField) (path : List Char)
        (visited : List Nat) (root : RootProps) (d : Nat),
      0 < d →
      (∀ tid, fi.referenced_table_id = some tid → tid ∉ visited) →
      (fi.data_type = [] ∨ isReferenceTypeChars fi.data_type = false ∨
        fi.is_calculated = true ∨ fi.referenced_table_id = none) →
      expandRef env d fi path visited root = [mkTerminalField fi path root]) := by
  refine ⟨fun env fi path visited root => rfl, ?_, ?_⟩
  · intro env fi path visited root d tid hrt hmem
    cases d with
    | zero => rfl
    | succ d => simp [expandRef, hrt, hmem]
  · intro env fi path visited root d hd hnc hterm
    cases d with
    | zero => exact absurd hd (by simp)
    | succ d =>
      have hcyc : (match fi.referenced_table_id with
          | some tid => decide (tid ∈ visited)
          | none => false) = false := by
        cases hrt : fi.referenced_table_id with
        | none => rfl
        | some tid => simpa using hnc tid hrt
      simp only [expandRef, hcyc]
      rw [if_neg (by simp), if_pos hterm]

/-- C2 witness: the three amended cases at concrete inputs — depth 0, a
visited referenced table at positive depth, and a non-reference field at
positive depth producing the formatted singleton. -/
theorem c2_amended_witness :
    expandRef (fun _ => []) 0 c2Field "Allocation.PartTable".data [] c2Root = [] ∧
    expandRef (fun _ => []) 3 c2CycField "Allocation.PartTable".data [7] c2Root = [] ∧
    expandRef (fun _ => []) 5 c2Field "Allocation.PartTable".data [] c2Root =
      [mkTerminalField c2Field "Allocation.PartTable".data c2Root] :=
  ⟨c2_amended.1 (fun _ => []) c2Field "Allocation.PartTable".data [] c2Root,
   c2_amended.2.1 (fun _ => []) c2CycField "Allocation.PartTable".data [7] c2Root 3 7
     rfl (by decide),
   c2_amended.2.2 (fun _ => []) c2Field "Allocation.PartTable".data [] c2Root 5
     (by decide) (fun tid h => by simp [c2Field] at h) (by decide)⟩
